import Mathlib

/-!
Shallow embedding of `easytorch/core/optimizer_builder.py`.

The file defines two factory functions, `build_optim` and `build_lr_scheduler`.
Python dictionaries are embedded as association lists with the usual
well-formedness condition (no duplicate keys); Python dict mutation is made
explicit by threading the configuration dictionary through the builders and
returning its final state alongside the result.  Hyperparameter values are
embedded as integers (the code only ever compares them for equality and hashes
them).  The external class registries (`torch.optim`, `easyoptim`,
`torch.optim.lr_scheduler`, `easy_lr_scheduler`) are module attribute tables;
they are embedded as association lists from attribute name to class, and all
theorems are parametric in their contents.
-/

namespace EasyTorch

/-- Hyperparameter values attached to optimizer overrides; the source only
compares them by equality and hashes them, so an abstract equality-comparable
carrier (integers) suffices. -/
abbrev Val := Int

/-- A Python dict from hyperparameter name to value, as an association list.
A real Python dict never has duplicate keys; `wfKeys` states that. -/
abbrev Dict := List (String × Val)

/-- Keys of an association list are pairwise distinct, as in a Python dict. -/
def wfKeys {α : Type} (d : List (String × α)) : Prop := (d.map Prod.fst).Nodup

/-- Python `d[k]` read / `getattr(module, k)`: first (and in a well-formed
dict, only) value stored under key `k`. -/
def dlookup {α : Type} : List (String × α) → String → Option α
  | [], _ => none
  | (k', v) :: rest, k => if k' = k then some v else dlookup rest k

/-- Python `d[k] = v`: overwrite the value in place when the key is present
(keeping its position), otherwise append the new entry at the end. -/
def pyDictSet {α : Type} (d : List (String × α)) (k : String) (v : α) :
    List (String × α) :=
  if d.any (fun kv => kv.1 = k) then
    d.map (fun kv => if kv.1 = k then (k, v) else kv)
  else
    d ++ [(k, v)]

/-- Equality of `frozenset(d.items())` and `frozenset(e.items())`: the two
association lists carry the same set of (key, value) pairs. -/
def fsetEq (d e : Dict) : Bool :=
  d.all (fun kv => decide (kv ∈ e)) && e.all (fun kv => decide (kv ∈ d))

/-- Python `d < e` on `frozenset`s of items: proper subset.  This is the
comparison `sorted` uses on the override sets; it is only a partial order. -/
def fsubLt (d e : Dict) : Bool :=
  d.all (fun kv => decide (kv ∈ e)) && !(e.all (fun kv => decide (kv ∈ d)))

/-- Python `==` on dicts: same number of entries and every key of the left
dict is mapped to the same value by the right dict. -/
def pyDictEq (d e : Dict) : Bool :=
  d.length = e.length && d.all (fun kv => dlookup e kv.1 = some kv.2)

/-- Python `getattr(p, "_optim", None) == hp` where `hp` is a dict: `None`
compares unequal to every dict, an attached dict compares by `pyDictEq`. -/
def pyOptimEq (a : Option Dict) (hp : Dict) : Bool :=
  match a with
  | none => false
  | some d => pyDictEq d hp

/-- Python's stable `sorted` under a strict comparison `lt`, as insertion from
the left: a later element is inserted before the first earlier element it
compares strictly below, hence after every element it is incomparable or equal
to.  This coincides with CPython's sort on the short lists at issue. -/
def pyInsert {α : Type} (lt : α → α → Bool) (x : α) : List α → List α
  | [] => [x]
  | y :: ys => if lt x y then x :: y :: ys else y :: pyInsert lt x ys

/-- Python `sorted(l)` with comparison `lt`: fold `pyInsert` over the list. -/
def pySorted {α : Type} (lt : α → α → Bool) (l : List α) : List α :=
  l.foldl (fun acc x => pyInsert lt x acc) []

/-- Python `dict.fromkeys(keys)` restricted to its key sequence: keep the
first occurrence of each key (here: each `frozenset`-equal override dict),
dropping later duplicates.  `seen` accumulates the keys already present. -/
def dedupAux {α : Type} (eq : α → α → Bool) (seen : List α) : List α → List α
  | [] => []
  | x :: xs =>
    if seen.any (fun y => eq y x) then dedupAux eq seen xs
    else x :: dedupAux eq (x :: seen) xs

/-- Deduplicate keeping first occurrences, per `dict.fromkeys`. -/
def dedupKeepFirst {α : Type} (eq : α → α → Bool) (l : List α) : List α :=
  dedupAux eq [] l

/-- A Python class object, identified by its defining module and name. -/
structure PyClass where
  modName : String
  clsName : String
deriving DecidableEq, Repr

/-- The `TYPE` field of a config: either a literal class reference or a name
to be resolved by reflection. -/
inductive TypeId where
  | cls (c : PyClass)
  | name (s : String)
deriving DecidableEq, Repr

/-- A module attribute table (such as `torch.optim` or `easyoptim`), mapping
attribute names to classes; `getattr` is `dlookup`. -/
abbrev Registry := List (String × PyClass)

/-- A model parameter as the builder sees it: an identity and the optional
`_optim` override dict attached to it (`none` when `hasattr(p, "_optim")` is
false). -/
structure Param where
  pid : Nat
  optimAttr : Option Dict
deriving DecidableEq, Repr

/-- One optimizer parameter group: the member parameters and the explicit
hyperparameter entries stored in the group dict (beyond `"params"`). -/
structure ParamGroup where
  params : List Param
  hps : Dict
deriving DecidableEq, Repr

/-- The constructed optimizer: its class, the defaults taken from `PARAM`
(what `optim_type(params, **optim_param)` received), and its parameter
groups in order; group 0 is the one made at construction. -/
structure Optimizer where
  otype : PyClass
  defaults : Dict
  param_groups : List ParamGroup
deriving DecidableEq, Repr

/-- PyTorch `Optimizer.add_param_group`: append the group to the list. -/
def addParamGroup (o : Optimizer) (g : ParamGroup) : Optimizer :=
  { o with param_groups := o.param_groups ++ [g] }

/-- The hyperparameter value a group resolves for key `k`: the group's own
entry when present, else the optimizer default (PyTorch fills absent group
keys from the defaults when the group is added). -/
def effectiveHp (defaults : Dict) (g : ParamGroup) (k : String) : Option Val :=
  match dlookup g.hps k with
  | some v => some v
  | none => dlookup defaults k

/-- Python errors the builders can raise. -/
inductive PyErr where
  | keyError (k : String)
  | attributeError (s : String)
  | typeError
deriving DecidableEq, Repr

/-- Value stored in an optimizer config dict: the `TYPE` identifier or the
`PARAM` dict. -/
inductive OCfgVal where
  | ty (t : TypeId)
  | pd (d : Dict)
deriving DecidableEq, Repr

/-- The optimizer config `optim_cfg`, a Python dict with `TYPE`/`PARAM`. -/
abbrev OptimCfg := List (String × OCfgVal)

/-- Lines 52-58 of the source: `if isinstance(optim_cfg['TYPE'], type)` use it
directly, else look the name up on the builtin module first and only on the
custom module when absent there; `getattr` on the custom module raises
`AttributeError` when the name is missing from both.  A non-type, non-string
`TYPE` value makes `hasattr` raise a `TypeError`. -/
def resolveClass (builtin custom : Registry) : TypeId → Except PyErr PyClass
  | .cls c => .ok c
  | .name s =>
    match dlookup builtin s with
    | some c => .ok c
    | none =>
      match dlookup custom s with
      | some c => .ok c
      | none => .error (.attributeError s)

/-- The sequence of distinct override sets `hps` the builder computes before
group creation (lines 73-77): collect the `_optim` dicts in parameter order,
deduplicate them by `frozenset` equality of their items keeping first
occurrences, and sort the result with the subset comparison. -/
def distinctOverrideSets (all_parameters : List Param) : List Dict :=
  pySorted fsubLt
    (dedupKeepFirst fsetEq (all_parameters.filterMap (fun p => p.optimAttr)))

/-- The group made at optimizer construction (line 70):
`params = [p for p in all_parameters if not hasattr(p, "_optim")]`, with no
explicit hyperparameter entries of its own. -/
def defaultGroup (all_parameters : List Param) : ParamGroup :=
  { params := all_parameters.filter (fun p => p.optimAttr.isNone), hps := [] }

/-- The group added for one override set `hp` (lines 78-82):
`params = [p for p in all_parameters if getattr(p, "_optim", None) == hp]`
and the group dict `{"params": params, **hp}`. -/
def overrideGroup (all_parameters : List Param) (hp : Dict) : ParamGroup :=
  { params := all_parameters.filter (fun p => pyOptimEq p.optimAttr hp),
    hps := hp }

/-- Embedding of `build_optim(optim_cfg, model)`.  The model is its parameter
list (`list(model.parameters())`).  The final state of the (mutable) config
dict is returned with the result; `optim_cfg` is never written to. -/
def build_optim (builtin custom : Registry) (optim_cfg : OptimCfg)
    (model : List Param) : OptimCfg × Except PyErr Optimizer :=
  match dlookup optim_cfg "TYPE" with
  | none => (optim_cfg, .error (.keyError "TYPE"))
  | some (.pd _) => (optim_cfg, .error .typeError)
  | some (.ty t) =>
    match resolveClass builtin custom t with
    | .error e => (optim_cfg, .error e)
    | .ok optim_type =>
      match dlookup optim_cfg "PARAM" with
      | none => (optim_cfg, .error (.keyError "PARAM"))
      | some (.ty _) => (optim_cfg, .error .typeError)
      | some (.pd pd) =>
        -- optim_param = optim_cfg['PARAM'].copy()
        let optim_param : Dict := pd
        let all_parameters := model
        -- optimizer = optim_type(params, **optim_param)
        let optimizer : Optimizer :=
          { otype := optim_type, defaults := optim_param,
            param_groups := [defaultGroup all_parameters] }
        -- hps = [dict(s) for s in sorted(list(dict.fromkeys(...)))]
        let hps := distinctOverrideSets all_parameters
        -- for hp in hps: optimizer.add_param_group({"params": ..., **hp})
        let optimizer := hps.foldl
          (fun o hp => addParamGroup o (overrideGroup all_parameters hp))
          optimizer
        (optim_cfg, .ok optimizer)

/-- Value stored in a scheduler `PARAM` dict: a plain hyperparameter value or
the optimizer object injected by the builder. -/
inductive SchedVal where
  | v (x : Val)
  | opt (o : Optimizer)
deriving DecidableEq, Repr

/-- A scheduler keyword-argument dict. -/
abbrev SDict := List (String × SchedVal)

/-- Value stored in a scheduler config dict. -/
inductive SCfgVal where
  | ty (t : TypeId)
  | pd (d : SDict)
deriving DecidableEq, Repr

/-- The scheduler config `lr_scheduler_cfg`. -/
abbrev SchedCfg := List (String × SCfgVal)

/-- The constructed scheduler: its class and the keyword arguments
`scheduler_type(**scheduler_param)` received. -/
structure Scheduler where
  stype : PyClass
  args : SDict
deriving DecidableEq, Repr

/-- Embedding of `build_lr_scheduler(lr_scheduler_cfg, optimizer)`.  The
self-assignment `lr_scheduler_cfg['TYPE'] = lr_scheduler_cfg['TYPE']` is the
one write to the config dict; the final config state is returned with the
result. -/
def build_lr_scheduler (builtin custom : Registry) (lr_scheduler_cfg : SchedCfg)
    (optimizer : Optimizer) : SchedCfg × Except PyErr Scheduler :=
  match dlookup lr_scheduler_cfg "TYPE" with
  | none => (lr_scheduler_cfg, .error (.keyError "TYPE"))
  | some tv =>
    -- lr_scheduler_cfg['TYPE'] = lr_scheduler_cfg['TYPE']
    let lr_scheduler_cfg := pyDictSet lr_scheduler_cfg "TYPE" tv
    match tv with
    | .pd _ => (lr_scheduler_cfg, .error .typeError)
    | .ty t =>
      match resolveClass builtin custom t with
      | .error e => (lr_scheduler_cfg, .error e)
      | .ok scheduler_type =>
        match dlookup lr_scheduler_cfg "PARAM" with
        | none => (lr_scheduler_cfg, .error (.keyError "PARAM"))
        | some (.ty _) => (lr_scheduler_cfg, .error .typeError)
        | some (.pd pd) =>
          -- scheduler_param = lr_scheduler_cfg['PARAM'].copy()
          let scheduler_param : SDict := pd
          -- scheduler_param['optimizer'] = optimizer
          let scheduler_param :=
            pyDictSet scheduler_param "optimizer" (.opt optimizer)
          -- scheduler = scheduler_type(**scheduler_param)
          (lr_scheduler_cfg,
           .ok { stype := scheduler_type, args := scheduler_param })

/-! Concrete sample instances used to witness the theorems below on closed
inputs. -/

/-- A sample builtin optimizer registry (a fragment of `torch.optim`). -/
def sampleBuiltins : Registry :=
  [("SGD", ⟨"torch.optim", "SGD"⟩), ("Adam", ⟨"torch.optim", "Adam"⟩)]

/-- A sample custom optimizer registry (an `easyoptim` module). -/
def sampleCustoms : Registry := [("Lion", ⟨"easyoptim", "Lion"⟩)]

/-- A sample optimizer config. -/
def sampleCfg : OptimCfg :=
  [("TYPE", .ty (.name "SGD")), ("PARAM", .pd [("lr", 3)])]

/-- A sample model: one plain parameter and one with an `_optim` override. -/
def sampleModel : List Param := [⟨0, none⟩, ⟨1, some [("lr", 1)]⟩]

/-- A sample model whose overridden parameter carries an empty override. -/
def sampleModelEmptyHp : List Param := [⟨0, none⟩, ⟨1, some []⟩]

/-- A sample builtin scheduler registry (a fragment of
`torch.optim.lr_scheduler`). -/
def sampleSchedBuiltins : Registry :=
  [("StepLR", ⟨"torch.optim.lr_scheduler", "StepLR"⟩)]

/-- A sample custom scheduler registry (an `easy_lr_scheduler` module). -/
def sampleSchedCustoms : Registry :=
  [("CosineWarmup", ⟨"easy_lr_scheduler", "CosineWarmup"⟩)]

/-- A sample scheduler config. -/
def sampleSchedCfg : SchedCfg :=
  [("TYPE", .ty (.name "StepLR")), ("PARAM", .pd [("gamma", .v 1)])]

/-- A sample already-built optimizer handed to the scheduler builder. -/
def sampleOpt : Optimizer :=
  { otype := ⟨"torch.optim", "SGD"⟩, defaults := [("lr", 3)],
    param_groups := [{ params := [⟨0, none⟩], hps := [] }] }

/-- A sample model with two value-equal override dicts written in different
key orders, and a third override differing in a value. -/
def sampleModelPQ : List Param :=
  [⟨0, some [("lr", 1), ("wd", 0)]⟩, ⟨1, some [("wd", 0), ("lr", 1)]⟩,
   ⟨2, some [("lr", 2)]⟩]

/-- The optimizer `build_optim` produces from `sampleCfg` and
`sampleModelPQ`. -/
def sampleBuiltPQ : Optimizer :=
  { otype := ⟨"torch.optim", "SGD"⟩, defaults := [("lr", 3)],
    param_groups :=
      [{ params := [], hps := [] },
       { params := [⟨0, some [("lr", 1), ("wd", 0)]⟩,
                    ⟨1, some [("wd", 0), ("lr", 1)]⟩],
         hps := [("lr", 1), ("wd", 0)] },
       { params := [⟨2, some [("lr", 2)]⟩], hps := [("lr", 2)] }] }

/-- The optimizer `build_optim` produces from `sampleCfg` and
`sampleModelEmptyHp`. -/
def sampleBuiltEmptyHp : Optimizer :=
  { otype := ⟨"torch.optim", "SGD"⟩, defaults := [("lr", 3)],
    param_groups :=
      [{ params := [⟨0, none⟩], hps := [] },
       { params := [⟨1, some []⟩], hps := [] }] }

/-- The optimizer `build_optim` produces from `sampleCfg` and `sampleModel`. -/
def sampleBuilt : Optimizer :=
  { otype := ⟨"torch.optim", "SGD"⟩, defaults := [("lr", 3)],
    param_groups :=
      [{ params := [⟨0, none⟩], hps := [] },
       { params := [⟨1, some [("lr", 1)]⟩], hps := [("lr", 1)] }] }

/-! Lemmas about dict lookup and update. -/

theorem dlookup_mem {α : Type} {d : List (String × α)} {k : String} {v : α}
    (h : dlookup d k = some v) : (k, v) ∈ d := by
  induction d with
  | nil => simp [dlookup] at h
  | cons kv rest ih =>
    obtain ⟨k', v'⟩ := kv
    by_cases hk : k' = k
    · subst hk
      simp [dlookup] at h
      simp [h]
    · simp [dlookup, hk] at h
      exact List.mem_cons_of_mem _ (ih h)

theorem dlookup_eq_none_iff {α : Type} {d : List (String × α)} {k : String} :
    dlookup d k = none ↔ k ∉ d.map Prod.fst := by
  induction d with
  | nil => simp [dlookup]
  | cons kv rest ih =>
    obtain ⟨k', v'⟩ := kv
    by_cases hk : k' = k
    · subst hk
      simp [dlookup]
    · simp [dlookup, hk, ih, fun h => hk (Eq.symm h)]
      tauto

theorem mem_dlookup {α : Type} {d : List (String × α)} {k : String} {v : α}
    (hwf : wfKeys d) (h : (k, v) ∈ d) : dlookup d k = some v := by
  induction d with
  | nil => simp at h
  | cons kv rest ih =>
    obtain ⟨k', v'⟩ := kv
    rcases List.mem_cons.mp h with heq | hmem
    · obtain ⟨h1, h2⟩ := Prod.mk.injEq .. ▸ heq.symm
      simp [dlookup, h1, h2]
    · have hk : k' ≠ k := by
        intro hk
        subst hk
        have : k' ∈ rest.map Prod.fst :=
          List.mem_map.mpr ⟨(k', v), hmem, rfl⟩
        exact (List.nodup_cons.mp hwf).1 this
      simp only [dlookup, hk, if_false]
      exact ih (List.nodup_cons.mp hwf).2 hmem

theorem dlookup_pyDictSet_self {α : Type} (d : List (String × α)) (k : String)
    (v : α) : dlookup (pyDictSet d k v) k = some v := by
  unfold pyDictSet
  by_cases hany : d.any (fun kv => kv.1 = k) = true
  · simp only [hany, if_true]
    obtain ⟨kv0, hmem, hk0⟩ := List.any_eq_true.mp hany
    induction d with
    | nil => simp at hmem
    | cons kv rest ih =>
      simp only [List.map_cons]
      by_cases hk : kv.1 = k
      · rw [if_pos hk]
        simp [dlookup]
      · rw [if_neg hk]
        rcases List.mem_cons.mp hmem with heq | hmem'
        · exact absurd (heq ▸ hk0) (by simpa using hk)
        · obtain ⟨k', v'⟩ := kv
          have hk' : k' ≠ k := by simpa using hk
          simp only [dlookup, if_neg hk']
          exact ih (List.any_eq_true.mpr ⟨kv0, hmem', hk0⟩) hmem'
  · simp only [hany, if_false]
    induction d with
    | nil => simp [dlookup]
    | cons kv rest ih =>
      obtain ⟨k', v'⟩ := kv
      have hk : k' ≠ k := by
        intro hk
        exact hany (List.any_eq_true.mpr ⟨(k', v'), by simp, by simpa using hk⟩)
      simp only [List.cons_append, dlookup, if_neg hk]
      exact ih (by
        intro hr
        obtain ⟨kv, hkv, hkk⟩ := List.any_eq_true.mp hr
        exact hany (List.any_eq_true.mpr ⟨kv, List.mem_cons_of_mem _ hkv, hkk⟩))

theorem pyDictSet_self {α : Type} {d : List (String × α)} {k : String} {v : α}
    (hwf : wfKeys d) (h : dlookup d k = some v) : pyDictSet d k v = d := by
  have hany : d.any (fun kv => kv.1 = k) = true :=
    List.any_eq_true.mpr ⟨(k, v), dlookup_mem h, by simp⟩
  unfold pyDictSet
  simp only [hany, if_true]
  induction d with
  | nil => simp
  | cons kv rest ih =>
    obtain ⟨k', v'⟩ := kv
    simp only [List.map_cons]
    by_cases hk : k' = k
    · subst hk
      have hv : v' = v := by simpa [dlookup] using h
      subst hv
      have hrest : ∀ kv ∈ rest,
          (if (kv : String × α).1 = k' then (k', v') else kv) = kv := by
        intro kv hkv
        refine if_neg fun hfst => ?_
        exact (List.nodup_cons.mp hwf).1 (List.mem_map.mpr ⟨kv, hkv, hfst⟩)
      rw [if_pos rfl, List.map_congr_left hrest]
      simp
    · simp only [dlookup, if_neg hk] at h
      rw [if_neg hk]
      exact congrArg (List.cons _) (ih (List.nodup_cons.mp hwf).2 h
        (List.any_eq_true.mpr ⟨(k, v), dlookup_mem h, by simp⟩))

/-! Lemmas about `frozenset` equality of dict item sets. -/

theorem fsetEq_iff {d e : Dict} : fsetEq d e = true ↔ ∀ kv, kv ∈ d ↔ kv ∈ e := by
  simp only [fsetEq, Bool.and_eq_true, List.all_eq_true, decide_eq_true_eq]
  constructor
  · rintro ⟨h1, h2⟩ kv
    exact ⟨h1 kv, h2 kv⟩
  · intro h
    exact ⟨fun kv hkv => (h kv).mp hkv, fun kv hkv => (h kv).mpr hkv⟩

theorem fsetEq_refl (d : Dict) : fsetEq d d = true := fsetEq_iff.mpr (by simp)

theorem fsetEq_symm {d e : Dict} (h : fsetEq d e = true) : fsetEq e d = true :=
  fsetEq_iff.mpr fun kv => (fsetEq_iff.mp h kv).symm

theorem fsetEq_trans {d e f : Dict} (h1 : fsetEq d e = true)
    (h2 : fsetEq e f = true) : fsetEq d f = true :=
  fsetEq_iff.mpr fun kv => (fsetEq_iff.mp h1 kv).trans (fsetEq_iff.mp h2 kv)

theorem dlookup_congr_fsetEq {d e : Dict} (hd : wfKeys d) (he : wfKeys e)
    (h : fsetEq d e = true) (k : String) : dlookup d k = dlookup e k := by
  cases hdk : dlookup d k with
  | some v =>
    exact (mem_dlookup he ((fsetEq_iff.mp h (k, v)).mp (dlookup_mem hdk))).symm
  | none =>
    cases hek : dlookup e k with
    | none => rfl
    | some v =>
      have : (k, v) ∈ d := (fsetEq_iff.mp h (k, v)).mpr (dlookup_mem hek)
      rw [mem_dlookup hd this] at hdk
      exact absurd hdk (by simp)

/-! Python dict `==` agrees with `frozenset` item equality on well-formed
dicts; this is what makes deduplicating by `frozenset(hp.items())` and then
filtering by `getattr(p, "_optim", None) == hp` consistent. -/

theorem wfKeys_nodup {α : Type} {d : List (String × α)} (h : wfKeys d) :
    d.Nodup := h.of_map Prod.fst

theorem pyDictEq_iff_fsetEq {d e : Dict} (hd : wfKeys d) (he : wfKeys e) :
    pyDictEq d e = true ↔ fsetEq d e = true := by
  constructor
  · intro h
    simp only [pyDictEq, Bool.and_eq_true, decide_eq_true_eq,
      List.all_eq_true] at h
    obtain ⟨hlen, hall⟩ := h
    have hsub : ∀ kv, kv ∈ d → kv ∈ e := by
      intro kv hkv
      exact dlookup_mem (hall kv hkv)
    have hkeysub : (d.map Prod.fst).toFinset ⊆ (e.map Prod.fst).toFinset := by
      intro k hk
      rw [List.mem_toFinset, List.mem_map] at hk
      obtain ⟨kv, hkv, hfst⟩ := hk
      rw [List.mem_toFinset, List.mem_map]
      exact ⟨kv, hsub kv hkv, hfst⟩
    have hcard : (e.map Prod.fst).toFinset.card ≤ (d.map Prod.fst).toFinset.card := by
      rw [List.toFinset_card_of_nodup hd, List.toFinset_card_of_nodup he]
      simp [hlen]
    have hkeyeq : (d.map Prod.fst).toFinset = (e.map Prod.fst).toFinset :=
      Finset.eq_of_subset_of_card_le hkeysub hcard
    rw [fsetEq_iff]
    intro kv
    refine ⟨hsub kv, fun hkv => ?_⟩
    obtain ⟨k, v⟩ := kv
    have hk : k ∈ (d.map Prod.fst).toFinset := by
      rw [hkeyeq, List.mem_toFinset, List.mem_map]
      exact ⟨(k, v), hkv, rfl⟩
    rw [List.mem_toFinset, List.mem_map] at hk
    obtain ⟨⟨k1, v1⟩, hkv1, hfst⟩ := hk
    cases hfst
    have h1 : dlookup e k1 = some v1 := hall (k1, v1) hkv1
    have h2 : dlookup e k1 = some v := mem_dlookup he hkv
    rw [h1] at h2
    cases h2
    exact hkv1
  · intro h
    have hmem := fsetEq_iff.mp h
    have hperm : d.Perm e :=
      (List.perm_ext_iff_of_nodup (wfKeys_nodup hd) (wfKeys_nodup he)).mpr hmem
    simp only [pyDictEq, Bool.and_eq_true, decide_eq_true_eq,
      List.all_eq_true]
    exact ⟨hperm.length_eq, fun kv hkv => mem_dlookup he ((hmem kv).mp hkv)⟩

/-! Lemmas about `dict.fromkeys` deduplication. -/

section Dedup

variable {α : Type} {eq : α → α → Bool}

theorem dedupAux_subset {seen l : List α} {x : α}
    (h : x ∈ dedupAux eq seen l) : x ∈ l := by
  induction l generalizing seen with
  | nil => simp [dedupAux] at h
  | cons y ys ih =>
    by_cases hy : seen.any (fun s => eq s y) = true
    · simp only [dedupAux, hy, if_true] at h
      exact List.mem_cons_of_mem _ (ih h)
    · simp only [dedupAux, hy, if_false] at h
      rcases List.mem_cons.mp h with heq | hmem
      · exact heq ▸ List.mem_cons_self _ _
      · exact List.mem_cons_of_mem _ (ih hmem)

theorem dedupAux_not_seen {seen l : List α} {x : α}
    (h : x ∈ dedupAux eq seen l) : ∀ s ∈ seen, eq s x = false := by
  induction l generalizing seen with
  | nil => simp [dedupAux] at h
  | cons y ys ih =>
    by_cases hy : seen.any (fun s => eq s y) = true
    · simp only [dedupAux, hy, if_true] at h
      exact ih h
    · simp only [dedupAux, hy, if_false] at h
      rcases List.mem_cons.mp h with heq | hmem
      · subst heq
        intro s hs
        by_contra hcon
        exact hy (List.any_eq_true.mpr ⟨s, hs, by simpa using hcon⟩)
      · intro s hs
        exact ih hmem s (List.mem_cons_of_mem _ hs)

theorem dedupAux_pairwise (l : List α) : ∀ seen : List α,
    List.Pairwise (fun a b => eq a b = false) (dedupAux eq seen l) := by
  induction l with
  | nil => intro seen; simp [dedupAux]
  | cons y ys ih =>
    intro seen
    by_cases hy : seen.any (fun s => eq s y) = true
    · simp only [dedupAux, hy, if_true]
      exact ih seen
    · simp only [dedupAux, hy, if_false]
      refine List.pairwise_cons.mpr ⟨?_, ih (y :: seen)⟩
      intro z hz
      exact dedupAux_not_seen hz y (List.mem_cons_self _ _)

theorem dedupAux_any
    (hsymm : ∀ a b, eq a b = true → eq b a = true)
    (htrans : ∀ a b c, eq a b = true → eq b c = true → eq a c = true)
    (d : α) (l : List α) : ∀ seen : List α,
    seen.any (fun s => eq s d) = false →
    (dedupAux eq seen l).any (fun x => eq d x) = l.any (fun x => eq d x) := by
  induction l with
  | nil => intro seen _; simp [dedupAux]
  | cons y ys ih =>
    intro seen hseen
    by_cases hy : seen.any (fun s => eq s y) = true
    · simp only [dedupAux, hy, if_true]
      have hdy : eq d y = false := by
        by_contra hcon
        obtain ⟨s, hs, hsy⟩ := List.any_eq_true.mp hy
        have : eq s d = true :=
          htrans s y d hsy (hsymm d y (by simpa using hcon))
        rw [List.any_eq_false] at hseen
        exact absurd this (by simpa using hseen s hs)
      rw [ih seen hseen, List.any_cons, hdy, Bool.false_or]
    · have hy' : (seen.any fun s => eq s y) = false := by simpa using hy
      simp only [dedupAux, hy', Bool.false_eq_true, if_false]
      by_cases hdy : eq d y = true
      · simp [List.any_cons, hdy]
      · have hseen2 : (y :: seen).any (fun s => eq s d) = false := by
          rw [List.any_cons, Bool.or_eq_false_iff]
          constructor
          · by_contra hcon
            exact hdy (hsymm y d (by simpa using hcon))
          · exact hseen
        rw [List.any_cons, List.any_cons, ih (y :: seen) hseen2]

end Dedup

/-! Lemmas about the embedded `sorted`. -/

theorem pyInsert_perm {α : Type} (lt : α → α → Bool) (x : α) (l : List α) :
    (pyInsert lt x l).Perm (x :: l) := by
  induction l with
  | nil => simp [pyInsert]
  | cons y ys ih =>
    by_cases h : lt x y = true
    · simp [pyInsert, h]
    · simp only [pyInsert, h, if_false]
      exact ((ih.cons y).trans (List.Perm.swap x y ys)).symm.symm

theorem foldl_pyInsert_perm {α : Type} (lt : α → α → Bool) :
    ∀ (l acc : List α),
    (l.foldl (fun a x => pyInsert lt x a) acc).Perm (acc ++ l) := by
  intro l
  induction l with
  | nil => intro acc; simp
  | cons x xs ih =>
    intro acc
    have h1 : ((x :: xs).foldl (fun a x => pyInsert lt x a) acc)
        = xs.foldl (fun a x => pyInsert lt x a) (pyInsert lt x acc) := rfl
    rw [h1]
    exact (ih (pyInsert lt x acc)).trans
      (((pyInsert_perm lt x acc).append_right xs).trans List.perm_middle.symm)

theorem pySorted_perm {α : Type} (lt : α → α → Bool) (l : List α) :
    (pySorted lt l).Perm l := by
  simpa using foldl_pyInsert_perm lt l []

theorem perm_any {α : Type} {l₁ l₂ : List α} (h : l₁.Perm l₂) (f : α → Bool) :
    l₁.any f = l₂.any f := by
  rw [Bool.eq_iff_iff]
  simp only [List.any_eq_true]
  constructor <;> rintro ⟨x, hx, hfx⟩
  · exact ⟨x, h.mem_iff.mp hx, hfx⟩
  · exact ⟨x, h.mem_iff.mpr hx, hfx⟩

/-- Counting lemma: in a list whose members are pairwise inequivalent, an
element equivalent to some member matches exactly one member. -/
theorem countP_eq_one_of_pairwise {α : Type} {eq : α → α → Bool}
    (hsymm : ∀ a b, eq a b = true → eq b a = true)
    (htrans : ∀ a b c, eq a b = true → eq b c = true → eq a c = true)
    {l : List α} (hpw : List.Pairwise (fun a b => eq a b = false) l)
    {d : α} (hex : ∃ x ∈ l, eq d x = true) :
    l.countP (fun x => eq d x) = 1 := by
  induction l with
  | nil => simp at hex
  | cons y ys ih =>
    obtain ⟨hy, hpw2⟩ := List.pairwise_cons.mp hpw
    by_cases hdy : eq d y = true
    · have hzero : ys.countP (fun x => eq d x) = 0 := by
        rw [List.countP_eq_zero]
        intro z hz
        by_contra hcon
        have : eq y z = true :=
          htrans y d z (hsymm d y hdy) (by simpa using hcon)
        rw [hy z hz] at this
        exact absurd this (by simp)
      rw [List.countP_cons, hzero, hdy]
      simp
    · obtain ⟨x, hx, hdx⟩ := hex
      rcases List.mem_cons.mp hx with heq | hmem
      · exact absurd (heq ▸ hdx) (by simpa using hdy)
      · rw [List.countP_cons]
        simp only [hdy]
        rw [ih hpw2 ⟨x, hmem, hdx⟩]
        simp [hdy]

/-! Structure of a successfully built optimizer. -/

theorem foldl_addParamGroup (m : List Param) :
    ∀ (l : List Dict) (o : Optimizer),
    l.foldl (fun o hp => addParamGroup o (overrideGroup m hp)) o
      = { o with param_groups := o.param_groups ++ l.map (overrideGroup m) } := by
  intro l
  induction l with
  | nil => intro o; simp
  | cons hp l ih =>
    intro o
    rw [List.foldl_cons, ih]
    simp [addParamGroup]

/-- Inversion of a successful `build_optim` call: the config is untouched,
`TYPE` resolved to the optimizer's class, `PARAM` became its defaults, and the
parameter groups are the default group followed by one group per distinct
override set, in order. -/
theorem build_optim_ok_inv {b c : Registry} {cfg : OptimCfg}
    {model : List Param} {cfg2 : OptimCfg} {o : Optimizer}
    (h : build_optim b c cfg model = (cfg2, .ok o)) :
    cfg2 = cfg ∧
    (∃ t, dlookup cfg "TYPE" = some (.ty t) ∧
      resolveClass b c t = .ok o.otype) ∧
    dlookup cfg "PARAM" = some (.pd o.defaults) ∧
    o.param_groups = defaultGroup model ::
      (distinctOverrideSets model).map (overrideGroup model) := by
  unfold build_optim at h
  split at h
  · simp at h
  · simp at h
  case h_3 tv t heq =>
    split at h
    · simp at h
    case h_2 optim_type hres =>
      split at h
      · simp at h
      · simp at h
      case h_3 pv pd hP =>
        simp only [foldl_addParamGroup, Prod.mk.injEq, Except.ok.injEq] at h
        obtain ⟨h1, h2⟩ := h
        subst h2
        exact ⟨h1.symm, ⟨t, heq, hres⟩, hP, by simp⟩

/-! Facts about the computed sequence of distinct override sets. -/

theorem mem_dedupKeepFirst_subset {α : Type} {eq : α → α → Bool} {l : List α}
    {x : α} (h : x ∈ dedupKeepFirst eq l) : x ∈ l :=
  dedupAux_subset h

theorem mem_distinctOverrideSets_attr {model : List Param} {hp : Dict}
    (h : hp ∈ distinctOverrideSets model) :
    ∃ p ∈ model, p.optimAttr = some hp := by
  have h1 : hp ∈ dedupKeepFirst fsetEq (model.filterMap (fun p => p.optimAttr)) :=
    ((pySorted_perm _ _).mem_iff).mp h
  have h2 : hp ∈ model.filterMap (fun p => p.optimAttr) :=
    mem_dedupKeepFirst_subset h1
  obtain ⟨p, hpmem, hattr⟩ := List.mem_filterMap.mp h2
  exact ⟨p, hpmem, hattr⟩

theorem wf_mem_distinctOverrideSets {model : List Param}
    (hwf : ∀ p ∈ model, ∀ dd, p.optimAttr = some dd → wfKeys dd)
    {hp : Dict} (h : hp ∈ distinctOverrideSets model) : wfKeys hp := by
  obtain ⟨p, hpmem, hattr⟩ := mem_distinctOverrideSets_attr h
  exact hwf p hpmem hp hattr

theorem distinctOverrideSets_any {model : List Param} {d : Dict} {p : Param}
    (hp : p ∈ model) (hd : p.optimAttr = some d) :
    (distinctOverrideSets model).any (fun x => fsetEq d x) = true := by
  unfold distinctOverrideSets
  rw [perm_any (pySorted_perm _ _)]
  unfold dedupKeepFirst
  rw [@dedupAux_any Dict fsetEq (fun a b h => fsetEq_symm h)
    (fun a b c h1 h2 => fsetEq_trans h1 h2) d
    (model.filterMap (fun p => p.optimAttr)) [] (by simp)]
  exact List.any_eq_true.mpr
    ⟨d, List.mem_filterMap.mpr ⟨p, hp, hd⟩, fsetEq_refl d⟩

theorem pairwise_distinctOverrideSets (model : List Param) :
    List.Pairwise (fun a b => fsetEq a b = false) (distinctOverrideSets model) := by
  have hsymm : Symmetric (fun a b : Dict => fsetEq a b = false) := by
    intro a b hab
    cases hba : fsetEq b a with
    | false => rfl
    | true => exact absurd (fsetEq_symm hba) (by simp [hab])
  exact (List.Perm.pairwise_iff (R := fun a b : Dict => fsetEq a b = false)
    (fun hab => hsymm hab) (pySorted_perm _ _)).mpr (dedupAux_pairwise _ _)

theorem mem_overrideGroup {m : List Param} {hp : Dict} {p : Param} :
    p ∈ (overrideGroup m hp).params ↔
      p ∈ m ∧ pyOptimEq p.optimAttr hp = true := by
  simp [overrideGroup, List.mem_filter]

theorem mem_defaultGroup {m : List Param} {p : Param} :
    p ∈ (defaultGroup m).params ↔ p ∈ m ∧ p.optimAttr = none := by
  simp [defaultGroup, List.mem_filter, Option.isNone_iff_eq_none]

theorem pyOptimEq_some_iff {d hp : Dict} (hwfd : wfKeys d) (hwfhp : wfKeys hp) :
    pyOptimEq (some d) hp = true ↔ fsetEq d hp = true :=
  pyDictEq_iff_fsetEq hwfd hwfhp

theorem pyOptimEq_congr {a : Option Dict} {hp hp' : Dict}
    (hwfa : ∀ dd, a = some dd → wfKeys dd)
    (hwf1 : wfKeys hp) (hwf2 : wfKeys hp')
    (h : fsetEq hp hp' = true) : pyOptimEq a hp = pyOptimEq a hp' := by
  cases a with
  | none => rfl
  | some d =>
    have hwfd : wfKeys d := hwfa d rfl
    rw [Bool.eq_iff_iff, pyOptimEq_some_iff hwfd hwf1,
      pyOptimEq_some_iff hwfd hwf2]
    exact ⟨fun h1 => fsetEq_trans h1 h, fun h1 => fsetEq_trans h1 (fsetEq_symm h)⟩

/-! Evaluation lemmas for the builders on well-formed configs. -/

/-- A successful `build_optim` run, given a resolvable `TYPE` and a present
`PARAM`, spelled out. -/
theorem build_optim_eval (b c : Registry) (cfg : OptimCfg) (model : List Param)
    (t : TypeId) (cl : PyClass) (pd : Dict)
    (hT : dlookup cfg "TYPE" = some (.ty t))
    (hres : resolveClass b c t = .ok cl)
    (hP : dlookup cfg "PARAM" = some (.pd pd)) :
    build_optim b c cfg model = (cfg, .ok
      { otype := cl, defaults := pd,
        param_groups := defaultGroup model ::
          (distinctOverrideSets model).map (overrideGroup model) }) := by
  unfold build_optim
  rw [hT]
  simp only [hres, hP, foldl_addParamGroup]
  simp

/-- A successful `build_lr_scheduler` run, given a resolvable `TYPE` and a
present `PARAM`, spelled out.  Key well-formedness is needed because the
builder first rewrites `TYPE` with its own value. -/
theorem build_lr_scheduler_eval (b c : Registry) (cfg : SchedCfg)
    (opt : Optimizer) (t : TypeId) (cl : PyClass) (pd : SDict)
    (hwf : wfKeys cfg)
    (hT : dlookup cfg "TYPE" = some (.ty t))
    (hres : resolveClass b c t = .ok cl)
    (hP : dlookup cfg "PARAM" = some (.pd pd)) :
    build_lr_scheduler b c cfg opt = (cfg, .ok
      { stype := cl, args := pyDictSet pd "optimizer" (.opt opt) }) := by
  unfold build_lr_scheduler
  rw [hT]
  have hset : pyDictSet cfg "TYPE" (.ty t) = cfg := pyDictSet_self hwf hT
  simp only [hset, hres, hP]

/-- Inversion of a successful `build_lr_scheduler` call: the arguments the
scheduler class received are some `PARAM` dict with the optimizer written
under the key `"optimizer"`. -/
theorem build_lr_scheduler_ok_args {b c : Registry} {cfg : SchedCfg}
    {opt : Optimizer} {cfg2 : SchedCfg} {sch : Scheduler}
    (h : build_lr_scheduler b c cfg opt = (cfg2, .ok sch)) :
    ∃ pd, sch.args = pyDictSet pd "optimizer" (.opt opt) := by
  unfold build_lr_scheduler at h
  split at h
  · simp at h
  case h_2 tv hT =>
    split at h
    · simp at h
    case h_2 t =>
      split at h
      · simp at h
      case h_2 cl hres =>
        simp only [] at h
        split at h
        · simp at h
        · simp at h
        case h_3 pv pd hP =>
          simp only [Prod.mk.injEq, Except.ok.injEq] at h
          exact ⟨pd, h.2.symm ▸ rfl⟩

/-- Every branch of `build_optim` leaves the config dict untouched. -/
theorem build_optim_cfg_eq (b c : Registry) (cfg : OptimCfg)
    (model : List Param) : (build_optim b c cfg model).1 = cfg := by
  unfold build_optim
  split
  · rfl
  · rfl
  · split
    · rfl
    · split <;> rfl

/-- The only write `build_lr_scheduler` performs on the config dict rewrites
`TYPE` with its own value, which leaves a well-formed dict unchanged. -/
theorem build_lr_scheduler_cfg_eq (b c : Registry) (cfg : SchedCfg)
    (opt : Optimizer) (hwf : wfKeys cfg) :
    (build_lr_scheduler b c cfg opt).1 = cfg := by
  unfold build_lr_scheduler
  split
  · rfl
  case h_2 tv hT =>
    have hset : pyDictSet cfg "TYPE" tv = cfg := pyDictSet_self hwf hT
    split
    · simpa using hset
    · split
      · simpa using hset
      · simp only [hset]
        split <;> rfl

/-- Membership (up to item-set equality) in the computed distinct override
sets is membership among the attached override dicts. -/
theorem distinctOverrideSets_any_eq (model : List Param) (d : Dict) :
    (distinctOverrideSets model).any (fun x => fsetEq d x)
      = (model.filterMap (fun p => p.optimAttr)).any (fun x => fsetEq d x) := by
  unfold distinctOverrideSets
  rw [perm_any (pySorted_perm _ _)]
  unfold dedupKeepFirst
  rw [@dedupAux_any Dict fsetEq (fun a b h => fsetEq_symm h)
    (fun a b c h1 h2 => fsetEq_trans h1 h2) d
    (model.filterMap (fun p => p.optimAttr)) [] (by simp)]

/-! Claim theorems. -/

/-- Claim C1 is false as stated: here are two orderings of the same two
trainable parameters — carrying, a fortiori, the same collection of override
dictionaries — for which the sequences of distinct override sets computed
before group creation differ.  The code sorts `frozenset`s of dict items, and
`frozenset` comparison is the subset partial order, under which the two
override sets `{("lr", 1)}` and `{("lr", 2)}` are incomparable, so `sorted`
leaves them in first-occurrence order. -/
theorem claim1_counterexample :
    ([Param.mk 0 (some [("lr", 1)]), Param.mk 1 (some [("lr", 2)])] :
        List Param).Perm
      [Param.mk 1 (some [("lr", 2)]), Param.mk 0 (some [("lr", 1)])] ∧
    distinctOverrideSets
        [Param.mk 0 (some [("lr", 1)]), Param.mk 1 (some [("lr", 2)])] ≠
      distinctOverrideSets
        [Param.mk 1 (some [("lr", 2)]), Param.mk 0 (some [("lr", 1)])] := by
  constructor
  · decide
  · decide

/-- Claim C1 (amended): for any two orderings of the model's parameters
carrying the same overrides, the computed lists of distinct override sets are
equal as collections — an override set has a match (by exact key/value-set
equality) in one list iff it has one in the other, and the list is free of
key/value-set duplicates — but the order of the sequence may depend on the
parameter enumeration order, because `sorted` orders `frozenset`s only by the
subset partial order. -/
theorem claim1_order_independent_collection {m1 m2 : List Param}
    (h : m1.Perm m2) (d : Dict) :
    (distinctOverrideSets m1).any (fun x => fsetEq d x)
      = (distinctOverrideSets m2).any (fun x => fsetEq d x) ∧
    List.Pairwise (fun a b => fsetEq a b = false) (distinctOverrideSets m1) := by
  refine ⟨?_, pairwise_distinctOverrideSets m1⟩
  rw [distinctOverrideSets_any_eq, distinctOverrideSets_any_eq]
  exact perm_any (h.filterMap _) _

/-- Witness for the amended claim C1 on the counterexample's two orderings. -/
theorem claim1_order_independent_collection_witness :
    (distinctOverrideSets
        [Param.mk 0 (some [("lr", 1)]), Param.mk 1 (some [("lr", 2)])]).any
        (fun x => fsetEq [("lr", 2)] x)
      = (distinctOverrideSets
        [Param.mk 1 (some [("lr", 2)]), Param.mk 0 (some [("lr", 1)])]).any
        (fun x => fsetEq [("lr", 2)] x) ∧
    List.Pairwise (fun a b => fsetEq a b = false)
      (distinctOverrideSets
        [Param.mk 0 (some [("lr", 1)]), Param.mk 1 (some [("lr", 2)])]) :=
  claim1_order_independent_collection (by decide) [("lr", 2)]

/-- Claim C2: for every distinct override set among the overridden
parameters, exactly one additional parameter group (beyond group 0) carries
that override set; that group holds exactly the trainable parameters whose
attached override dict equals the override set, and the group resolves every
key of the override to the override's value (its hyperparameters merged
in). -/
theorem claim2_override_groups {b c : Registry} {cfg cfg2 : OptimCfg}
    {model : List Param} {o : Optimizer}
    (hwf : ∀ p ∈ model, ∀ dd, p.optimAttr = some dd → wfKeys dd)
    (hok : build_optim b c cfg model = (cfg2, .ok o))
    (hp : Dict) (hmem : hp ∈ distinctOverrideSets model) :
    o.param_groups.tail.countP (fun g => fsetEq g.hps hp) = 1 ∧
    ∀ g ∈ o.param_groups.tail, fsetEq g.hps hp = true →
      (∀ p : Param, p ∈ g.params ↔
        p ∈ model ∧ pyOptimEq p.optimAttr hp = true) ∧
      (∀ k v, dlookup hp k = some v → effectiveHp o.defaults g k = some v) := by
  obtain ⟨-, -, -, hgroups⟩ := build_optim_ok_inv hok
  rw [hgroups]
  simp only [List.tail_cons]
  have hwfhp : wfKeys hp := wf_mem_distinctOverrideSets hwf hmem
  constructor
  · rw [List.countP_map]
    rw [List.countP_congr (q := fun x => fsetEq hp x) ?hiff]
    case hiff =>
      intro x hx
      simp only [Function.comp, overrideGroup]
      exact ⟨fun h => fsetEq_symm h, fun h => fsetEq_symm h⟩
    exact @countP_eq_one_of_pairwise Dict fsetEq (fun a b h => fsetEq_symm h)
      (fun a b c h1 h2 => fsetEq_trans h1 h2) (distinctOverrideSets model)
      (pairwise_distinctOverrideSets model) hp ⟨hp, hmem, fsetEq_refl hp⟩
  · intro g hg hghp
    obtain ⟨hp2, hmem2, rfl⟩ := List.mem_map.mp hg
    have hwfhp2 : wfKeys hp2 := wf_mem_distinctOverrideSets hwf hmem2
    have hfs : fsetEq hp2 hp = true := hghp
    constructor
    · intro p
      rw [mem_overrideGroup]
      constructor
      · rintro ⟨hpm, heq⟩
        refine ⟨hpm, ?_⟩
        rwa [pyOptimEq_congr (fun dd hdd => hwf p hpm dd hdd)
          hwfhp2 hwfhp hfs] at heq
      · rintro ⟨hpm, heq⟩
        refine ⟨hpm, ?_⟩
        rwa [pyOptimEq_congr (fun dd hdd => hwf p hpm dd hdd)
          hwfhp2 hwfhp hfs]
    · intro k v hkv
      have hlk : dlookup hp2 k = dlookup hp k :=
        dlookup_congr_fsetEq hwfhp2 hwfhp hfs k
      simp only [effectiveHp, overrideGroup]
      rw [hlk, hkv]

/-- Witness for claim C2 on the sample model and its override `{lr: 1}`. -/
theorem claim2_override_groups_witness :
    sampleBuilt.param_groups.tail.countP
      (fun g => fsetEq g.hps [("lr", 1)]) = 1 ∧
    ∀ g ∈ sampleBuilt.param_groups.tail, fsetEq g.hps [("lr", 1)] = true →
      (∀ p : Param, p ∈ g.params ↔
        p ∈ sampleModel ∧ pyOptimEq p.optimAttr [("lr", 1)] = true) ∧
      (∀ k v, dlookup [("lr", 1)] k = some v →
        effectiveHp sampleBuilt.defaults g k = some v) :=
  @claim2_override_groups sampleBuiltins sampleCustoms sampleCfg sampleCfg
    sampleModel sampleBuilt
    (by
      intro p hpm dd hdd
      simp only [sampleModel, List.mem_cons, List.not_mem_nil, or_false] at hpm
      rcases hpm with rfl | rfl
      · cases hdd
      · cases hdd
        unfold wfKeys
        decide)
    (by rfl) [("lr", 1)] (by decide)

/-- Claim C3: after a successful build, every parameter of the model without
an override attribute is in parameter group 0, and group 0's parameter count
equals the number of parameters lacking the attribute. -/
theorem claim3_default_group {b c : Registry} {cfg cfg2 : OptimCfg}
    {model : List Param} {o : Optimizer}
    (hok : build_optim b c cfg model = (cfg2, .ok o)) :
    ∃ g0 rest, o.param_groups = g0 :: rest ∧
      (∀ p ∈ model, p.optimAttr = none → p ∈ g0.params) ∧
      g0.params.length = model.countP (fun p => p.optimAttr.isNone) := by
  obtain ⟨-, -, -, hgroups⟩ := build_optim_ok_inv hok
  refine ⟨defaultGroup model, _, hgroups, ?_, ?_⟩
  · intro p hpm hattr
    exact mem_defaultGroup.mpr ⟨hpm, hattr⟩
  · simp [defaultGroup, List.countP_eq_length_filter]

/-- Witness for claim C3 on the sample model. -/
theorem claim3_default_group_witness :
    ∃ g0 rest, sampleBuilt.param_groups = g0 :: rest ∧
      (∀ p ∈ sampleModel, p.optimAttr = none → p ∈ g0.params) ∧
      g0.params.length = sampleModel.countP (fun p => p.optimAttr.isNone) :=
  @claim3_default_group sampleBuiltins sampleCustoms sampleCfg sampleCfg
    sampleModel sampleBuilt (by rfl)

/-- Claim C4: parameters whose override dicts are equal as sets of (key,
value) pairs — regardless of key order — share a parameter group, while a
parameter whose override differs in some key or value never shares a group
with them. -/
theorem claim4_value_equality_grouping {b c : Registry} {cfg cfg2 : OptimCfg}
    {model : List Param} {o : Optimizer}
    (hwf : ∀ p ∈ model, ∀ dd, p.optimAttr = some dd → wfKeys dd)
    (hok : build_optim b c cfg model = (cfg2, .ok o))
    (p q : Param) (hpm : p ∈ model) (hqm : q ∈ model)
    (dp dq : Dict) (hdp : p.optimAttr = some dp) (hdq : q.optimAttr = some dq) :
    (fsetEq dp dq = true →
      ∃ g ∈ o.param_groups, p ∈ g.params ∧ q ∈ g.params) ∧
    (fsetEq dp dq = false →
      (∃ g ∈ o.param_groups, p ∈ g.params) ∧
      (∃ g ∈ o.param_groups, q ∈ g.params) ∧
      ∀ g ∈ o.param_groups, ¬(p ∈ g.params ∧ q ∈ g.params)) := by
  obtain ⟨-, -, -, hgroups⟩ := build_optim_ok_inv hok
  have hfind : ∀ r ∈ model, ∀ dr, r.optimAttr = some dr →
      ∃ hp2 ∈ distinctOverrideSets model,
        fsetEq dr hp2 = true ∧ r ∈ (overrideGroup model hp2).params := by
    intro r hrm dr hdr
    obtain ⟨hp2, hmem2, hfs⟩ :=
      List.any_eq_true.mp (distinctOverrideSets_any hrm hdr)
    refine ⟨hp2, hmem2, hfs, ?_⟩
    rw [mem_overrideGroup]
    refine ⟨hrm, ?_⟩
    rw [hdr]
    exact (pyOptimEq_some_iff (hwf r hrm dr hdr)
      (wf_mem_distinctOverrideSets hwf hmem2)).mpr hfs
  have hgmem : ∀ hp2 ∈ distinctOverrideSets model,
      overrideGroup model hp2 ∈ o.param_groups := by
    intro hp2 hmem2
    rw [hgroups]
    exact List.mem_cons_of_mem _ (List.mem_map_of_mem _ hmem2)
  have hingroup : ∀ r ∈ model, ∀ dr, r.optimAttr = some dr →
      ∀ hp2 ∈ distinctOverrideSets model,
      r ∈ (overrideGroup model hp2).params → fsetEq dr hp2 = true := by
    intro r hrm dr hdr hp2 hmem2 hrg
    rw [mem_overrideGroup, hdr] at hrg
    exact (pyOptimEq_some_iff (hwf r hrm dr hdr)
      (wf_mem_distinctOverrideSets hwf hmem2)).mp hrg.2
  constructor
  · intro heq
    obtain ⟨hp2, hmem2, hfs, hpg⟩ := hfind p hpm dp hdp
    refine ⟨overrideGroup model hp2, hgmem hp2 hmem2, hpg, ?_⟩
    rw [mem_overrideGroup]
    refine ⟨hqm, ?_⟩
    rw [hdq]
    exact (pyOptimEq_some_iff (hwf q hqm dq hdq)
      (wf_mem_distinctOverrideSets hwf hmem2)).mpr
      (fsetEq_trans (fsetEq_symm heq) hfs)
  · intro hne
    obtain ⟨hp2, hmem2, hfs2, hpg⟩ := hfind p hpm dp hdp
    obtain ⟨hp3, hmem3, hfs3, hqg⟩ := hfind q hqm dq hdq
    refine ⟨⟨overrideGroup model hp2, hgmem hp2 hmem2, hpg⟩,
      ⟨overrideGroup model hp3, hgmem hp3 hmem3, hqg⟩, ?_⟩
    intro g hg hboth
    rw [hgroups] at hg
    rcases List.mem_cons.mp hg with rfl | hmap
    · rw [mem_defaultGroup] at hboth
      rw [hdp] at hboth
      exact absurd hboth.1.2 (by simp)
    · obtain ⟨hp4, hmem4, rfl⟩ := List.mem_map.mp hmap
      have h1 : fsetEq dp hp4 = true :=
        hingroup p hpm dp hdp hp4 hmem4 hboth.1
      have h2 : fsetEq dq hp4 = true :=
        hingroup q hqm dq hdq hp4 hmem4 hboth.2
      rw [fsetEq_trans h1 (fsetEq_symm h2)] at hne
      exact absurd hne (by simp)

/-- Witness for claim C4: the two parameters carrying `{lr: 1, wd: 0}` in
different key orders, against the parameter carrying `{lr: 2}`. -/
theorem claim4_value_equality_grouping_witness :
    (fsetEq [("lr", 1), ("wd", 0)] [("wd", 0), ("lr", 1)] = true →
      ∃ g ∈ sampleBuiltPQ.param_groups,
        (Param.mk 0 (some [("lr", 1), ("wd", 0)])) ∈ g.params ∧
        (Param.mk 1 (some [("wd", 0), ("lr", 1)])) ∈ g.params) ∧
    (fsetEq [("lr", 1), ("wd", 0)] [("wd", 0), ("lr", 1)] = false →
      (∃ g ∈ sampleBuiltPQ.param_groups,
        (Param.mk 0 (some [("lr", 1), ("wd", 0)])) ∈ g.params) ∧
      (∃ g ∈ sampleBuiltPQ.param_groups,
        (Param.mk 1 (some [("wd", 0), ("lr", 1)])) ∈ g.params) ∧
      ∀ g ∈ sampleBuiltPQ.param_groups,
        ¬((Param.mk 0 (some [("lr", 1), ("wd", 0)])) ∈ g.params ∧
          (Param.mk 1 (some [("wd", 0), ("lr", 1)])) ∈ g.params)) :=
  @claim4_value_equality_grouping sampleBuiltins sampleCustoms sampleCfg
    sampleCfg sampleModelPQ sampleBuiltPQ
    (by
      intro p hpm dd hdd
      simp only [sampleModelPQ, List.mem_cons, List.not_mem_nil, or_false]
        at hpm
      rcases hpm with rfl | rfl | rfl <;> cases hdd <;>
        (unfold wfKeys; decide))
    (by rfl)
    (Param.mk 0 (some [("lr", 1), ("wd", 0)]))
    (Param.mk 1 (some [("wd", 0), ("lr", 1)]))
    (by decide) (by decide)
    [("lr", 1), ("wd", 0)] [("wd", 0), ("lr", 1)] rfl rfl

/-- Claim C8: a parameter carrying an empty override dict is treated as
overridden — it is excluded from group 0 and lands in an added group whose
own hyperparameter entries are empty, so every hyperparameter the group
resolves is the optimizer default. -/
theorem claim8_empty_override {b c : Registry} {cfg cfg2 : OptimCfg}
    {model : List Param} {o : Optimizer}
    (hok : build_optim b c cfg model = (cfg2, .ok o))
    (p : Param) (hpm : p ∈ model) (hattr : p.optimAttr = some []) :
    ∃ g0 rest, o.param_groups = g0 :: rest ∧ p ∉ g0.params ∧
      ∃ g ∈ rest, p ∈ g.params ∧ g.hps = [] ∧
        ∀ k, effectiveHp o.defaults g k = dlookup o.defaults k := by
  obtain ⟨-, -, -, hgroups⟩ := build_optim_ok_inv hok
  refine ⟨defaultGroup model, _, hgroups, ?_, ?_⟩
  · intro hmem
    rw [mem_defaultGroup, hattr] at hmem
    exact absurd hmem.2 (by simp)
  · obtain ⟨hp2, hmem2, hfs⟩ :=
      List.any_eq_true.mp (distinctOverrideSets_any hpm hattr)
    have hp2nil : hp2 = [] := by
      rcases hp2 with _ | ⟨kv, rest⟩
      · rfl
      · exfalso
        have hkv := (fsetEq_iff.mp hfs kv).mpr (List.mem_cons_self kv rest)
        simp at hkv
    subst hp2nil
    refine ⟨overrideGroup model [], List.mem_map_of_mem _ hmem2, ?_, rfl, ?_⟩
    · rw [mem_overrideGroup, hattr]
      exact ⟨hpm, rfl⟩
    · intro k
      rfl

/-- Witness for claim C8 on the model with an empty override dict. -/
theorem claim8_empty_override_witness :
    ∃ g0 rest, sampleBuiltEmptyHp.param_groups = g0 :: rest ∧
      (Param.mk 1 (some [])) ∉ g0.params ∧
      ∃ g ∈ rest, (Param.mk 1 (some [])) ∈ g.params ∧ g.hps = [] ∧
        ∀ k, effectiveHp sampleBuiltEmptyHp.defaults g k
          = dlookup sampleBuiltEmptyHp.defaults k :=
  @claim8_empty_override sampleBuiltins sampleCustoms sampleCfg sampleCfg
    sampleModelEmptyHp sampleBuiltEmptyHp (by rfl)
    (Param.mk 1 (some [])) (by decide) rfl

/-- Claim C5: the optimizer builder uses a literal class directly, resolves a
name against the builtin registry first and against the custom registry only
when the builtin lacks it, and the constructed optimizer is of exactly the
resolved class with the supplied `PARAM` keyword arguments. -/
theorem claim5_optim_type_resolution (b c : Registry) (cfg : OptimCfg)
    (model : List Param) (pd : Dict)
    (hP : dlookup cfg "PARAM" = some (.pd pd)) :
    (∀ cl, dlookup cfg "TYPE" = some (.ty (.cls cl)) →
      ((build_optim b c cfg model).2.toOption.map Optimizer.otype = some cl ∧
       (build_optim b c cfg model).2.toOption.map Optimizer.defaults
         = some pd)) ∧
    (∀ s cl, dlookup cfg "TYPE" = some (.ty (.name s)) →
      dlookup b s = some cl →
      ((build_optim b c cfg model).2.toOption.map Optimizer.otype = some cl ∧
       (build_optim b c cfg model).2.toOption.map Optimizer.defaults
         = some pd)) ∧
    (∀ s cl, dlookup cfg "TYPE" = some (.ty (.name s)) →
      dlookup b s = none → dlookup c s = some cl →
      ((build_optim b c cfg model).2.toOption.map Optimizer.otype = some cl ∧
       (build_optim b c cfg model).2.toOption.map Optimizer.defaults
         = some pd)) := by
  refine ⟨?_, ?_, ?_⟩
  · intro cl hT
    rw [build_optim_eval b c cfg model _ cl pd hT rfl hP]
    exact ⟨rfl, rfl⟩
  · intro s cl hT hb
    rw [build_optim_eval b c cfg model _ cl pd hT (by simp [resolveClass, hb]) hP]
    exact ⟨rfl, rfl⟩
  · intro s cl hT hb hc
    rw [build_optim_eval b c cfg model _ cl pd hT
      (by simp [resolveClass, hb, hc]) hP]
    exact ⟨rfl, rfl⟩

/-- Witness for claim C5: the name `"SGD"` resolves from the builtin
registry on the sample config. -/
theorem claim5_optim_type_resolution_witness :
    (build_optim sampleBuiltins sampleCustoms sampleCfg
        sampleModel).2.toOption.map Optimizer.otype
      = some ⟨"torch.optim", "SGD"⟩ ∧
    (build_optim sampleBuiltins sampleCustoms sampleCfg
        sampleModel).2.toOption.map Optimizer.defaults = some [("lr", 3)] :=
  (claim5_optim_type_resolution sampleBuiltins sampleCustoms sampleCfg
    sampleModel [("lr", 3)] rfl).2.1 "SGD" ⟨"torch.optim", "SGD"⟩ rfl rfl

/-- Claim C6: the scheduler builder resolves a `TYPE` name against the
builtin scheduler registry before falling back to the custom one, and every
successfully constructed scheduler receives the already-built optimizer among
its constructor arguments (under the keyword `"optimizer"`). -/
theorem claim6_sched_resolution (b c : Registry) (cfg : SchedCfg)
    (opt : Optimizer) (pd : SDict) (hwf : wfKeys cfg)
    (hP : dlookup cfg "PARAM" = some (.pd pd)) :
    (∀ s cl, dlookup cfg "TYPE" = some (.ty (.name s)) →
      dlookup b s = some cl →
      ((build_lr_scheduler b c cfg opt).2.toOption.map Scheduler.stype
          = some cl ∧
       (build_lr_scheduler b c cfg opt).2.toOption.map
          (fun sch => dlookup sch.args "optimizer")
          = some (some (.opt opt)))) ∧
    (∀ s cl, dlookup cfg "TYPE" = some (.ty (.name s)) →
      dlookup b s = none → dlookup c s = some cl →
      ((build_lr_scheduler b c cfg opt).2.toOption.map Scheduler.stype
          = some cl ∧
       (build_lr_scheduler b c cfg opt).2.toOption.map
          (fun sch => dlookup sch.args "optimizer")
          = some (some (.opt opt)))) ∧
    (∀ cfg2 sch, build_lr_scheduler b c cfg opt = (cfg2, .ok sch) →
      dlookup sch.args "optimizer" = some (.opt opt)) := by
  refine ⟨?_, ?_, ?_⟩
  · intro s cl hT hb
    rw [build_lr_scheduler_eval b c cfg opt _ cl pd hwf hT
      (by simp [resolveClass, hb]) hP]
    exact ⟨rfl,
      congrArg some (dlookup_pyDictSet_self pd "optimizer" (.opt opt))⟩
  · intro s cl hT hb hc
    rw [build_lr_scheduler_eval b c cfg opt _ cl pd hwf hT
      (by simp [resolveClass, hb, hc]) hP]
    exact ⟨rfl,
      congrArg some (dlookup_pyDictSet_self pd "optimizer" (.opt opt))⟩
  · intro cfg2 sch hok
    obtain ⟨pd2, hargs⟩ := build_lr_scheduler_ok_args hok
    rw [hargs]
    exact dlookup_pyDictSet_self pd2 "optimizer" (.opt opt)

/-- Witness for claim C6: the name `"StepLR"` resolves from the builtin
scheduler registry and the sample optimizer is injected. -/
theorem claim6_sched_resolution_witness :
    (build_lr_scheduler sampleSchedBuiltins sampleSchedCustoms sampleSchedCfg
        sampleOpt).2.toOption.map Scheduler.stype
      = some ⟨"torch.optim.lr_scheduler", "StepLR"⟩ ∧
    (build_lr_scheduler sampleSchedBuiltins sampleSchedCustoms sampleSchedCfg
        sampleOpt).2.toOption.map (fun sch => dlookup sch.args "optimizer")
      = some (some (.opt sampleOpt)) :=
  (claim6_sched_resolution sampleSchedBuiltins sampleSchedCustoms
    sampleSchedCfg sampleOpt [("gamma", .v 1)]
    (by unfold wfKeys; decide) rfl).1 "StepLR"
    ⟨"torch.optim.lr_scheduler", "StepLR"⟩ rfl rfl

/-- Claim C7: a `TYPE` name absent from both the builtin and the custom
registry makes either builder fail with the attribute (lookup) error naming
it, with no fallback. -/
theorem claim7_unknown_type_error (b c : Registry) (s : String)
    (hb : dlookup b s = none) (hc : dlookup c s = none) :
    (∀ (cfg : OptimCfg) (model : List Param),
      dlookup cfg "TYPE" = some (.ty (.name s)) →
      build_optim b c cfg model = (cfg, .error (.attributeError s))) ∧
    (∀ (cfg : SchedCfg) (opt : Optimizer), wfKeys cfg →
      dlookup cfg "TYPE" = some (.ty (.name s)) →
      build_lr_scheduler b c cfg opt
        = (cfg, .error (.attributeError s))) := by
  have hres : resolveClass b c (.name s) = .error (.attributeError s) := by
    simp [resolveClass, hb, hc]
  constructor
  · intro cfg model hT
    unfold build_optim
    rw [hT]
    simp [hres]
  · intro cfg opt hwf hT
    have hset : pyDictSet cfg "TYPE" (.ty (.name s)) = cfg :=
      pyDictSet_self hwf hT
    unfold build_lr_scheduler
    rw [hT]
    simp [hres, hset]

/-- Witness for claim C7: the name `"Nope"` is in neither sample registry. -/
theorem claim7_unknown_type_error_witness :
    build_optim sampleBuiltins sampleCustoms
        [("TYPE", .ty (.name "Nope")), ("PARAM", .pd [("lr", 3)])] []
      = ([("TYPE", .ty (.name "Nope")), ("PARAM", .pd [("lr", 3)])],
         .error (.attributeError "Nope")) ∧
    build_lr_scheduler sampleSchedBuiltins sampleSchedCustoms
        [("TYPE", .ty (.name "Nope")), ("PARAM", .pd [("gamma", .v 1)])]
        sampleOpt
      = ([("TYPE", .ty (.name "Nope")), ("PARAM", .pd [("gamma", .v 1)])],
         .error (.attributeError "Nope")) := by
  have h1 := claim7_unknown_type_error sampleBuiltins sampleCustoms "Nope"
    rfl rfl
  have h2 := claim7_unknown_type_error sampleSchedBuiltins sampleSchedCustoms
    "Nope" rfl rfl
  exact ⟨h1.1 _ [] rfl, h2.2 _ sampleOpt (by unfold wfKeys; decide) rfl⟩

/-- Claim C9: neither builder mutates the caller's config dict: the final
config state returned by `build_optim` is its input, and the one write
`build_lr_scheduler` performs rewrites `TYPE` with its own unchanged value,
leaving a well-formed config equal to its input. -/
theorem claim9_config_not_mutated (b c : Registry) (ocfg : OptimCfg)
    (model : List Param) (bs cs : Registry) (scfg : SchedCfg)
    (opt : Optimizer) (hwf : wfKeys scfg) :
    (build_optim b c ocfg model).1 = ocfg ∧
    (build_lr_scheduler bs cs scfg opt).1 = scfg :=
  ⟨build_optim_cfg_eq b c ocfg model,
   build_lr_scheduler_cfg_eq bs cs scfg opt hwf⟩

/-- Witness for claim C9 on the sample configs. -/
theorem claim9_config_not_mutated_witness :
    (build_optim sampleBuiltins sampleCustoms sampleCfg sampleModel).1
      = sampleCfg ∧
    (build_lr_scheduler sampleSchedBuiltins sampleSchedCustoms sampleSchedCfg
      sampleOpt).1 = sampleSchedCfg :=
  claim9_config_not_mutated sampleBuiltins sampleCustoms sampleCfg sampleModel
    sampleSchedBuiltins sampleSchedCustoms sampleSchedCfg sampleOpt
    (by unfold wfKeys; decide)

/-- Claim C10: with well-formed override dicts, the parameter groups
partition the model's parameters — each parameter lies in exactly one group:
group 0 when it has no override, and otherwise only groups whose override set
equals its dict (of which, by the count, there is exactly one). -/
theorem claim10_partition {b c : Registry} {cfg cfg2 : OptimCfg}
    {model : List Param} {o : Optimizer}
    (hwf : ∀ p ∈ model, ∀ dd, p.optimAttr = some dd → wfKeys dd)
    (hok : build_optim b c cfg model = (cfg2, .ok o))
    (p : Param) (hpm : p ∈ model) :
    o.param_groups.countP (fun g => decide (p ∈ g.params)) = 1 ∧
    (p.optimAttr = none →
      ∀ g0 ∈ o.param_groups.head?, p ∈ g0.params) ∧
    (∀ dd, p.optimAttr = some dd →
      ∀ g ∈ o.param_groups, p ∈ g.params → fsetEq g.hps dd = true) := by
  obtain ⟨-, -, -, hgroups⟩ := build_optim_ok_inv hok
  rw [hgroups]
  cases hattr : p.optimAttr with
  | none =>
    refine ⟨?_, ?_, ?_⟩
    · rw [List.countP_cons]
      have hhead : decide (p ∈ (defaultGroup model).params) = true := by
        simp [mem_defaultGroup, hpm, hattr]
      have htail :
          (List.map (overrideGroup model)
            (distinctOverrideSets model)).countP
            (fun g => decide (p ∈ g.params)) = 0 := by
        rw [List.countP_eq_zero]
        intro g hg
        obtain ⟨hp2, hmem2, rfl⟩ := List.mem_map.mp hg
        simp only [decide_eq_true_eq]
        intro hmem
        rw [mem_overrideGroup, hattr] at hmem
        exact absurd hmem.2 (by simp [pyOptimEq])
      rw [htail, hhead]
      simp
    · intro _ g0 hg0
      simp only [List.head?_cons, Option.mem_def, Option.some.injEq] at hg0
      subst hg0
      exact mem_defaultGroup.mpr ⟨hpm, hattr⟩
    · intro dd hdd
      cases hdd
  | some dd =>
    have hwdd : wfKeys dd := hwf p hpm dd hattr
    refine ⟨?_, ?_, ?_⟩
    · rw [List.countP_cons]
      have hhead : decide (p ∈ (defaultGroup model).params) = false := by
        simp [mem_defaultGroup, hattr]
      rw [hhead]
      simp only [Bool.false_eq_true, if_false, Nat.add_zero]
      rw [List.countP_map]
      rw [List.countP_congr (q := fun hp2 => fsetEq dd hp2) ?hiff]
      case hiff =>
        intro hp2 hmem2
        simp only [Function.comp, decide_eq_true_eq]
        constructor
        · intro hmem
          rw [mem_overrideGroup, hattr] at hmem
          exact (pyOptimEq_some_iff hwdd
            (wf_mem_distinctOverrideSets hwf hmem2)).mp hmem.2
        · intro hfs
          rw [mem_overrideGroup, hattr]
          exact ⟨hpm, (pyOptimEq_some_iff hwdd
            (wf_mem_distinctOverrideSets hwf hmem2)).mpr hfs⟩
      exact @countP_eq_one_of_pairwise Dict fsetEq
        (fun a b h => fsetEq_symm h)
        (fun a b c h1 h2 => fsetEq_trans h1 h2) (distinctOverrideSets model)
        (pairwise_distinctOverrideSets model) dd
        (List.any_eq_true.mp (distinctOverrideSets_any hpm hattr))
    · intro hnone
      cases hnone
    · intro dd2 hdd2
      obtain rfl : dd = dd2 := by
        injection hdd2
      intro g hg hmemg
      rcases List.mem_cons.mp hg with rfl | hmap
      · rw [mem_defaultGroup, hattr] at hmemg
        exact absurd hmemg.2 (by simp)
      · obtain ⟨hp2, hmem2, rfl⟩ := List.mem_map.mp hmap
        rw [mem_overrideGroup, hattr] at hmemg
        exact fsetEq_symm ((pyOptimEq_some_iff hwdd
          (wf_mem_distinctOverrideSets hwf hmem2)).mp hmemg.2)

/-- Witness for claim C10 on the sample model's overridden parameter. -/
theorem claim10_partition_witness :
    sampleBuilt.param_groups.countP
      (fun g => decide ((Param.mk 1 (some [("lr", 1)])) ∈ g.params)) = 1 ∧
    ((Param.mk 1 (some [("lr", 1)])).optimAttr = none →
      ∀ g0 ∈ sampleBuilt.param_groups.head?,
        (Param.mk 1 (some [("lr", 1)])) ∈ g0.params) ∧
    (∀ dd, (Param.mk 1 (some [("lr", 1)])).optimAttr = some dd →
      ∀ g ∈ sampleBuilt.param_groups,
        (Param.mk 1 (some [("lr", 1)])) ∈ g.params →
          fsetEq g.hps dd = true) :=
  @claim10_partition sampleBuiltins sampleCustoms sampleCfg sampleCfg
    sampleModel sampleBuilt
    (by
      intro p hpm dd hdd
      simp only [sampleModel, List.mem_cons, List.not_mem_nil, or_false]
        at hpm
      rcases hpm with rfl | rfl
      · cases hdd
      · cases hdd
        unfold wfKeys
        decide)
    (by rfl) (Param.mk 1 (some [("lr", 1)])) (by decide)

end EasyTorch
